import Mathlib

/-!
Shallow embedding of the miniECS core (EntityManager / Entity / System /
compute) and proofs of the specification claims about it.

JavaScript objects are modelled as association lists `List (String × Val)`
kept in insertion order (JS objects enumerate string keys in insertion
order); property assignment updates an existing key in place and appends a
new key at the end, exactly as JS property assignment does.
-/

namespace MiniECS

/-- A JavaScript runtime value as far as the miniECS core observes it:
`undefined`, `null`, booleans, numbers, strings, and plain objects
(field-containers) whose own enumerable properties are an insertion-ordered
association list. -/
inductive Val where
  | undef : Val
  | vnull : Val
  | bool (b : Bool) : Val
  | num (n : Int) : Val
  | str (s : String) : Val
  | obj (fields : List (String × Val)) : Val

/-- The JS test `typeof v === 'object'`: true for plain objects and —
a JS quirk — for `null`; false for `undefined`, booleans, numbers,
strings. -/
def typeofIsObject : Val → Bool
  | .vnull => true
  | .obj _ => true
  | _ => false

/-- The spec's notion of a field-container: a structured, non-primitive
value, i.e. a plain object. `null` is a primitive and is not a
field-container. -/
def isFieldContainer : Val → Bool
  | .obj _ => true
  | _ => false

/-- Own enumerable entries a value contributes as a source of object spread
or `Object.assign`: objects contribute their entries, strings contribute
their index properties, `null` / `undefined` / booleans / numbers
contribute nothing. -/
def objSpread : Val → List (String × Val)
  | .obj fs => fs
  | .str s => s.toList.enum.map (fun ic => (toString ic.1, Val.str (String.mk [ic.2])))
  | _ => []

/-- JS property assignment `o[k] = v` on an insertion-ordered object: an
existing key keeps its position and gets the new value, a new key is
appended at the end. -/
def setEntry : List (String × Val) → String → Val → List (String × Val)
  | [], k, v => [(k, v)]
  | (k', v') :: rest, k, v =>
      if k = k' then (k, v) :: rest else (k', v') :: setEntry rest k v

/-- Copying all entries of `src` onto `target` one property assignment at a
time, in `src` order: the semantics shared by object spread
`\x7b ...target, ...src \x7d` restricted to the entries involved, and by
`Object.assign(target, src)`. -/
def assignEntries (target src : List (String × Val)) : List (String × Val) :=
  src.foldl (fun t kv => setEntry t kv.1 kv.2) target

/-- `Object.assign(\x7b\x7d, cur, inc)` (equivalently the object literal
`\x7b ...cur, ...inc \x7d`): a fresh object holding `cur`'s spread entries
overwritten by `inc`'s spread entries. -/
def objMerge (cur inc : Val) : Val :=
  Val.obj (assignEntries (assignEntries [] (objSpread cur)) (objSpread inc))

/-! Association-list lemmas about `setEntry` / `assignEntries`. -/

theorem lookup_setEntry_self (l : List (String × Val)) (k : String) (v : Val) :
    List.lookup k (setEntry l k v) = some v := by
  induction l with
  | nil => simp [setEntry, List.lookup]
  | cons kv rest ih =>
    obtain ⟨k', v'⟩ := kv
    by_cases h : k = k'
    · simp [setEntry, h, List.lookup]
    · simp [setEntry, h, List.lookup, beq_false_of_ne h, ih]

theorem lookup_setEntry_ne (l : List (String × Val)) {k k' : String} (v : Val)
    (h : k' ≠ k) : List.lookup k' (setEntry l k v) = List.lookup k' l := by
  induction l with
  | nil => simp [setEntry, List.lookup, beq_false_of_ne h]
  | cons kv rest ih =>
    obtain ⟨k₀, v₀⟩ := kv
    by_cases hk : k = k₀
    · subst hk
      simp [setEntry, List.lookup, beq_false_of_ne h]
    · by_cases hk' : k' = k₀
      · simp [setEntry, hk, List.lookup, hk']
      · simp [setEntry, hk, List.lookup, beq_false_of_ne hk', ih]

theorem setEntry_id {l : List (String × Val)} {k : String} {v : Val}
    (h : List.lookup k l = some v) : setEntry l k v = l := by
  induction l with
  | nil => simp [List.lookup] at h
  | cons kv rest ih =>
    obtain ⟨k₀, v₀⟩ := kv
    by_cases hk : k = k₀
    · subst hk
      simp [List.lookup] at h
      simp [setEntry, h]
    · simp [List.lookup, beq_false_of_ne hk] at h
      simp [setEntry, hk, ih h]

theorem setEntry_setEntry (l : List (String × Val)) (k : String) (v w : Val) :
    setEntry (setEntry l k v) k w = setEntry l k w := by
  induction l with
  | nil => simp [setEntry]
  | cons kv rest ih =>
    obtain ⟨k₀, v₀⟩ := kv
    by_cases hk : k = k₀
    · simp [setEntry, hk]
    · simp [setEntry, hk, ih]

theorem keys_setEntry_of_mem {l : List (String × Val)} {k : String} (v : Val)
    (h : k ∈ l.map Prod.fst) :
    (setEntry l k v).map Prod.fst = l.map Prod.fst := by
  induction l with
  | nil => simp at h
  | cons kv rest ih =>
    obtain ⟨k₀, v₀⟩ := kv
    by_cases hk : k = k₀
    · simp [setEntry, hk]
    · rw [List.map_cons] at h
      rcases List.mem_cons.mp h with h | h
      · exact absurd h hk
      · simp [setEntry, hk, ih h]

theorem setEntry_of_not_mem {l : List (String × Val)} {k : String} (v : Val)
    (h : k ∉ l.map Prod.fst) : setEntry l k v = l ++ [(k, v)] := by
  induction l with
  | nil => simp [setEntry]
  | cons kv rest ih =>
    obtain ⟨k₀, v₀⟩ := kv
    rw [List.map_cons] at h
    have hk : k ≠ k₀ := fun hkk => h (List.mem_cons.mpr (Or.inl hkk))
    have hr : k ∉ rest.map Prod.fst := fun hkk => h (List.mem_cons.mpr (Or.inr hkk))
    simp [setEntry, hk, ih hr]

theorem mem_keys_setEntry (l : List (String × Val)) (k : String) (v : Val) :
    k ∈ (setEntry l k v).map Prod.fst := by
  by_cases h : k ∈ l.map Prod.fst
  · rw [keys_setEntry_of_mem v h]; exact h
  · rw [setEntry_of_not_mem v h]; simp

theorem keys_subset_setEntry (l : List (String × Val)) (k k' : String) (v : Val)
    (h : k' ∈ l.map Prod.fst) : k' ∈ (setEntry l k v).map Prod.fst := by
  by_cases hm : k ∈ l.map Prod.fst
  · rw [keys_setEntry_of_mem v hm]; exact h
  · rw [setEntry_of_not_mem v hm]; simp [h]

theorem nodup_keys_setEntry {l : List (String × Val)} (k : String) (v : Val)
    (h : (l.map Prod.fst).Nodup) : ((setEntry l k v).map Prod.fst).Nodup := by
  by_cases hm : k ∈ l.map Prod.fst
  · rw [keys_setEntry_of_mem v hm]; exact h
  · rw [setEntry_of_not_mem v hm]
    simp only [List.map_append, List.map_cons, List.map_nil]
    exact List.Nodup.append h (by simp) (by simpa using fun hx => hm hx)

theorem lookup_none_of_not_mem_keys {l : List (String × Val)} {k : String}
    (h : k ∉ l.map Prod.fst) : List.lookup k l = none := by
  induction l with
  | nil => simp [List.lookup]
  | cons kv rest ih =>
    obtain ⟨k₀, v₀⟩ := kv
    rw [List.map_cons] at h
    have hk : k ≠ k₀ := fun hkk => h (List.mem_cons.mpr (Or.inl hkk))
    have hr : k ∉ rest.map Prod.fst := fun hkk => h (List.mem_cons.mpr (Or.inr hkk))
    simp [List.lookup, beq_false_of_ne hk, ih hr]

theorem mem_keys_of_lookup {l : List (String × Val)} {k : String} {v : Val}
    (h : List.lookup k l = some v) : k ∈ l.map Prod.fst := by
  by_cases hm : k ∈ l.map Prod.fst
  · exact hm
  · rw [lookup_none_of_not_mem_keys hm] at h
    exact absurd h (by simp)

theorem lookup_of_mem_nodup {l : List (String × Val)} {k : String} {v : Val}
    (hnd : (l.map Prod.fst).Nodup) (h : (k, v) ∈ l) :
    List.lookup k l = some v := by
  induction l with
  | nil => simp at h
  | cons kv rest ih =>
    obtain ⟨k₀, v₀⟩ := kv
    rw [List.map_cons, List.nodup_cons] at hnd
    rcases List.mem_cons.mp h with heq | hmem
    · injection heq with h1 h2
      subst h1
      subst h2
      simp [List.lookup]
    · have hk : k ≠ k₀ := by
        intro hkk
        subst hkk
        exact hnd.1 (List.mem_map.mpr ⟨(k, v), hmem, rfl⟩)
      simp [List.lookup, beq_false_of_ne hk, ih hnd.2 hmem]

theorem lookup_assignEntries {src : List (String × Val)}
    (hnd : (src.map Prod.fst).Nodup) (t : List (String × Val)) (k : String) :
    List.lookup k (assignEntries t src) =
      match List.lookup k src with
      | some v => some v
      | none => List.lookup k t := by
  induction src generalizing t with
  | nil => simp [assignEntries, List.lookup]
  | cons kv rest ih =>
    obtain ⟨k₀, v₀⟩ := kv
    simp only [List.map_cons, List.nodup_cons] at hnd
    have step : assignEntries t ((k₀, v₀) :: rest) = assignEntries (setEntry t k₀ v₀) rest := rfl
    rw [step, ih hnd.2]
    by_cases hk : k = k₀
    · subst hk
      have : List.lookup k rest = none :=
        lookup_none_of_not_mem_keys (by simpa using hnd.1)
      simp [this, List.lookup, lookup_setEntry_self]
    · simp [List.lookup, beq_false_of_ne hk]
      cases List.lookup k rest with
      | none => simp [lookup_setEntry_ne t v₀ hk]
      | some w => simp

theorem keys_assignEntries_of_mem (src : List (String × Val)) (t : List (String × Val))
    (k : String) (h : k ∈ t.map Prod.fst) :
    k ∈ (assignEntries t src).map Prod.fst := by
  induction src generalizing t with
  | nil => simpa [assignEntries] using h
  | cons kv rest ih =>
    have step : assignEntries t (kv :: rest) = assignEntries (setEntry t kv.1 kv.2) rest := rfl
    rw [step]
    exact ih _ (keys_subset_setEntry t kv.1 k kv.2 h)

theorem nodup_keys_assignEntries (src : List (String × Val)) {t : List (String × Val)}
    (h : (t.map Prod.fst).Nodup) : ((assignEntries t src).map Prod.fst).Nodup := by
  induction src generalizing t with
  | nil => simpa [assignEntries] using h
  | cons kv rest ih =>
    have step : assignEntries t (kv :: rest) = assignEntries (setEntry t kv.1 kv.2) rest := rfl
    rw [step]
    exact ih (nodup_keys_setEntry kv.1 kv.2 h)

theorem assignEntries_append_of_disjoint {src : List (String × Val)}
    (hnd : (src.map Prod.fst).Nodup) :
    ∀ {t : List (String × Val)}, (∀ k ∈ src.map Prod.fst, k ∉ t.map Prod.fst) →
      assignEntries t src = t ++ src := by
  induction src with
  | nil => intro t _; simp [assignEntries]
  | cons kv rest ih =>
    intro t hdisj
    obtain ⟨k₀, v₀⟩ := kv
    simp only [List.map_cons, List.nodup_cons] at hnd
    have step : assignEntries t ((k₀, v₀) :: rest) = assignEntries (setEntry t k₀ v₀) rest := rfl
    have hk₀ : k₀ ∉ t.map Prod.fst := hdisj k₀ (by simp)
    rw [step, setEntry_of_not_mem v₀ hk₀, ih hnd.2]
    · simp
    · intro k hk
      simp only [List.map_append, List.map_cons, List.map_nil, List.mem_append,
        List.mem_cons, List.not_mem_nil] at *
      rintro (h | h | h)
      · exact hdisj k (Or.inr hk) h
      · exact hnd.1 (h ▸ hk)
      · exact h

theorem assignEntries_nil_of_nodup {src : List (String × Val)}
    (hnd : (src.map Prod.fst).Nodup) : assignEntries [] src = src := by
  simpa using assignEntries_append_of_disjoint hnd (t := []) (by simp)

theorem assignEntries_id {src : List (String × Val)} :
    ∀ {t : List (String × Val)}, (∀ kv ∈ src, List.lookup kv.1 t = some kv.2) →
      assignEntries t src = t := by
  induction src with
  | nil => intro t _; simp [assignEntries]
  | cons kv rest ih =>
    intro t h
    have step : assignEntries t (kv :: rest) = assignEntries (setEntry t kv.1 kv.2) rest := rfl
    rw [step, setEntry_id (h kv (by simp))]
    exact ih (fun kv' hkv' => h kv' (by simp [hkv']))

/-! The `Entity` class. -/

/-- An entity: an identity `eid` (standing in for the JS object reference)
together with its own properties in insertion order. -/
structure Entity where
  eid : Nat
  fields : List (String × Val)

/-- The constructor `new Entity(priority)`: sets `this.entityManager = null`
and then `this.priority = priority || 0` (so both are own properties from
the moment of creation, in that insertion order). -/
def Entity.new (eid : Nat) (priority : Option Int) : Entity :=
  ⟨eid, [("entityManager", Val.vnull), ("priority", Val.num (priority.getD 0))]⟩

/-- Property read `this[k]`: the own property's value, or `undefined` when
the entity has no such own property. -/
def Entity.getProp (e : Entity) (k : String) : Val :=
  (List.lookup k e.fields).getD Val.undef

/-- `Object.getOwnPropertyNames(entity)`: the own property names in
insertion order. -/
def Entity.ownProps (e : Entity) : List String :=
  e.fields.map Prod.fst

/-- One iteration of the inner loop of `Entity.assign` for the key/value
pair `kv`: if both the incoming value and the current value are of JS
object type (`typeof === 'object'`, which includes `null`), the field
becomes `Object.assign(\x7b\x7d, this[key], component[key])`; otherwise a
placeholder empty object is first created when the key is not yet an own
property, and the incoming value is then assigned outright. -/
def assignStep (acc : Entity) (kv : String × Val) : Entity :=
  if typeofIsObject kv.2 && typeofIsObject (acc.getProp kv.1) then
    { acc with fields := setEntry acc.fields kv.1 (objMerge (acc.getProp kv.1) kv.2) }
  else
    let withOwn :=
      if (List.lookup kv.1 acc.fields).isSome then acc.fields
      else setEntry acc.fields kv.1 (Val.obj [])
    { acc with fields := setEntry withOwn kv.1 kv.2 }

/-- The inner loop of `Entity.assign` over one component fragment
(`for (const key in component) ...`). -/
def Entity.assign1 (e : Entity) (component : List (String × Val)) : Entity :=
  component.foldl assignStep e

/-- `Entity.assign(...components)`: merges each fragment in turn and
returns the (updated) entity itself. -/
def Entity.assign (e : Entity) (components : List (List (String × Val))) : Entity :=
  components.foldl Entity.assign1 e

/-! The `System` class and the `EntityManager` class. -/

/-- A system: an identity `sid` (standing in for the JS object reference),
a priority and a query. The manager back-reference (`this.entityManager`,
`null` until registration) is modelled as the `Option EntityManager`
argument of `System.getEntities` below. -/
structure System where
  sid : Nat
  priority : Int
  query : List String

/-- The constructor `new System(priority, query)`: `this.priority =
priority || 0` and `this.query = query || []`. A subclass such as
`MovableSystem` inherits this constructor unchanged, so an instance always
gets these own properties. -/
def System.new (sid : Nat) (priority : Option Int) (query : Option (List String)) : System :=
  ⟨sid, priority.getD 0, query.getD []⟩

/-- The manager: the entity registry and the system registry, in insertion
order. `nextEid` models the allocator handing out distinct object
identities for created entities. -/
structure EntityManager where
  entities : List Entity
  systems : List System
  nextEid : Nat

/-- The predicate of `getEntities`: `query.every(prop =>
entityProperties.includes(prop))` over the entity's own property names. -/
def queryMatches (e : Entity) (query : List String) : Bool :=
  query.all (fun p => e.ownProps.contains p)

/-- `EntityManager.getEntities(query)`: filters the entity registry, in
registry order, keeping the entities owning every property named in the
query. -/
def EntityManager.getEntities (m : EntityManager) (query : List String) : List Entity :=
  m.entities.filter (fun e => queryMatches e query)

/-- `EntityManager.registerSystem(system)`: sets the system's manager
back-reference, appends it to the system registry and returns the system. -/
def EntityManager.registerSystem (m : EntityManager) (s : System) :
    EntityManager × System :=
  ({ m with systems := m.systems ++ [s] }, s)

/-- `EntityManager.createEntity(priority)`: constructs `new
Entity(priority)`, sets `entity.entityManager = this` and appends the
entity to the registry. The manager object itself is not representable
inside `Val`, so the back-reference keeps the constructor's `null` value
here; only the own property's presence is observable to the claims, and
`null` and the manager object are both of JS object type, so the branch
taken by a later `assign` on this key is also unaffected. -/
def EntityManager.createEntity (m : EntityManager) (priority : Option Int) :
    EntityManager × Entity :=
  let e := Entity.new m.nextEid priority
  ({ m with entities := m.entities ++ [e], nextEid := m.nextEid + 1 }, e)

/-- `this.entities.indexOf(entity)` with `===` identity comparison,
rendered on entity identities: `none` models the result `-1`. -/
def jsIndexOf : List Entity → Nat → Option Nat
  | [], _ => none
  | x :: rest, target =>
      if x.eid = target then some 0 else (jsIndexOf rest target).map (· + 1)

/-- `array.splice(i, 1)`: removes the single element at index `i`. -/
def splice1 (l : List Entity) (i : Nat) : List Entity :=
  l.take i ++ l.drop (i + 1)

/-- `EntityManager.destroyEntity(entity)`: looks the entity up by identity
and splices it out when found; does nothing when `indexOf` returns `-1`. -/
def EntityManager.destroyEntity (m : EntityManager) (e : Entity) : EntityManager :=
  match jsIndexOf m.entities e.eid with
  | none => m
  | some i => { m with entities := splice1 m.entities i }

/-- The sort order of the comparator `(a, b) => a.priority - b.priority`:
ascending priority. -/
def sysLE (a b : System) : Bool :=
  decide (a.priority ≤ b.priority)

/-- `EntityManager.update(delta, time)`: sorts the system registry in place
by ascending priority (the host sort is assumed stable, modelled by a
stable merge sort), then calls `system._update(delta, time)` on each system
in that order; `_update` forwards both arguments unchanged to the system's
overridable `update`. The returned list is the trace of those invocations,
in order, with the arguments each one receives. -/
def EntityManager.update (m : EntityManager) (delta time : Int) :
    EntityManager × List (System × Int × Int) :=
  let sorted := m.systems.mergeSort sysLE
  ({ m with systems := sorted }, sorted.map (fun s => (s, delta, time)))

/-- `System.getEntities()`: `this.entityManager.getEntities(this.query)`.
The `mgr` argument is the current value of the back-reference: `none`
(i.e. the constructor's `null`, before any registration) makes the call
fail with a host TypeError, modelled as `none`. -/
def System.getEntities (s : System) (mgr : Option EntityManager) :
    Option (List Entity) :=
  match mgr with
  | none => none
  | some m => some (m.getEntities s.query)

/-- `MovableSystem.prototype.query = queries.movable`: the query array the
demo assigns on the class prototype. An instance's own `query` property
(always created by the inherited constructor) shadows it. -/
def MovableSystem.protoQuery : List String :=
  ["position", "velocity"]

/-- JS property lookup for `query` on a `MovableSystem` instance: the own
property when present, else the prototype's. -/
def propOrProto (own : Option (List String)) (proto : List String) : List String :=
  match own with
  | some q => q
  | none => proto

/-! The component factory `compute`. -/

/-- One iteration of the loop of `compute` for the options entry `kv`: keys
absent from the running result are ignored; when the incoming value is of
JS object type the key becomes `\x7b ...defaults[key], ...options[key] \x7d`,
otherwise the incoming value replaces it. -/
def computeStep (defaults : List (String × Val)) (acc : List (String × Val))
    (kv : String × Val) : List (String × Val) :=
  if (List.lookup kv.1 acc).isSome then
    if typeofIsObject kv.2 then
      setEntry acc kv.1 (objMerge ((List.lookup kv.1 defaults).getD Val.undef) kv.2)
    else
      setEntry acc kv.1 kv.2
  else acc

/-- `compute(options, defaults)`: starts from `\x7b ...defaults \x7d`, runs the
loop over the options entries, then explodes the merged mapping into
one-key fragments in its (insertion) order. `key in computedOptions` is
modelled as an own-key test; the prototype chain of plain objects is not
modelled. -/
def compute (options defaults : List (String × Val)) :
    List (List (String × Val)) :=
  let computedOptions := assignEntries [] defaults
  let merged := options.foldl (computeStep defaults) computedOptions
  merged.map (fun kv => [(kv.1, kv.2)])

/-- Per-key result of `compute` as the (amended) spec describes it: a key
absent from the options keeps its default; a key whose incoming value is of
JS object type gets the default's spread entries overlaid with the
incoming value's spread entries; any other incoming value replaces the
default outright. -/
def computeKey (options : List (String × Val)) (k : String) (d : Val) : Val :=
  match List.lookup k options with
  | none => d
  | some v => if typeofIsObject v then objMerge d v else v

/-- The (amended) spec-level description of `compute`: one single-key
fragment per defaults entry, in defaults order, each carrying
`computeKey`. -/
def computeSpec (options defaults : List (String × Val)) :
    List (List (String × Val)) :=
  defaults.map (fun kv => [(kv.1, computeKey options kv.1 kv.2)])

/-- Per-key result of `compute` as the original claim words it: the branch
is chosen by whether the DEFAULT value is a field-container — when it is,
the incoming value is overlaid onto the default's container; otherwise the
incoming value replaces it outright. -/
def computeKeyClaimed (options : List (String × Val)) (k : String) (d : Val) : Val :=
  match List.lookup k options with
  | none => d
  | some v => if isFieldContainer d then objMerge d v else v

/-- The original claim's description of `compute`, built from
`computeKeyClaimed`. -/
def computeClaimed (options defaults : List (String × Val)) :
    List (List (String × Val)) :=
  defaults.map (fun kv => [(kv.1, computeKeyClaimed options kv.1 kv.2)])

/-! Characterization lemmas for `Entity.assign`. -/

theorem assignStep_fields (acc : Entity) (kv : String × Val) :
    (assignStep acc kv).fields =
      setEntry acc.fields kv.1
        (if typeofIsObject kv.2 && typeofIsObject (acc.getProp kv.1)
         then objMerge (acc.getProp kv.1) kv.2 else kv.2) := by
  by_cases h : (typeofIsObject kv.2 && typeofIsObject (acc.getProp kv.1)) = true
  · simp [assignStep, h]
  · by_cases hown : (List.lookup kv.1 acc.fields).isSome = true
    · simp [assignStep, h, hown]
    · simp [assignStep, h, hown, setEntry_setEntry]

theorem assignStep_eid (acc : Entity) (kv : String × Val) :
    (assignStep acc kv).eid = acc.eid := by
  unfold assignStep
  split <;> rfl

theorem getProp_assignStep_self (e : Entity) (k : String) (v : Val) :
    (assignStep e (k, v)).getProp k =
      if typeofIsObject v && typeofIsObject (e.getProp k)
      then objMerge (e.getProp k) v else v := by
  unfold Entity.getProp
  rw [show (assignStep e (k, v)).fields =
      setEntry e.fields k
        (if typeofIsObject v && typeofIsObject ((List.lookup k e.fields).getD Val.undef)
         then objMerge ((List.lookup k e.fields).getD Val.undef) v else v) from
    assignStep_fields e (k, v)]
  simp [lookup_setEntry_self]

theorem getProp_assignStep_ne (e : Entity) {k k' : String} (v : Val) (h : k' ≠ k) :
    (assignStep e (k, v)).getProp k' = e.getProp k' := by
  unfold Entity.getProp
  rw [assignStep_fields e (k, v), lookup_setEntry_ne _ _ h]

theorem getProp_assign1 :
    ∀ {component : List (String × Val)}, (component.map Prod.fst).Nodup →
    ∀ (e : Entity) (k : String),
    (e.assign1 component).getProp k =
      match List.lookup k component with
      | some v =>
          if typeofIsObject v && typeofIsObject (e.getProp k)
          then objMerge (e.getProp k) v else v
      | none => e.getProp k := by
  intro component
  induction component with
  | nil => intro _ e k; simp [Entity.assign1, List.lookup]
  | cons kv rest ih =>
    intro hnd e k
    obtain ⟨k₀, v₀⟩ := kv
    rw [List.map_cons, List.nodup_cons] at hnd
    have step : Entity.assign1 e ((k₀, v₀) :: rest) =
        Entity.assign1 (assignStep e (k₀, v₀)) rest := rfl
    rw [step, ih hnd.2]
    by_cases hk : k = k₀
    · subst hk
      have hnone : List.lookup k rest = none := lookup_none_of_not_mem_keys hnd.1
      simp [hnone, List.lookup, getProp_assignStep_self]
    · have hrw := getProp_assignStep_ne e v₀ hk
      cases hres : List.lookup k rest with
      | none => simp [hres, List.lookup, beq_false_of_ne hk, hrw]
      | some w => simp [hres, List.lookup, beq_false_of_ne hk, hrw]

theorem ownProps_assignStep_mono (acc : Entity) (kv : String × Val) {k : String}
    (h : k ∈ acc.ownProps) : k ∈ (assignStep acc kv).ownProps := by
  unfold Entity.ownProps at *
  rw [assignStep_fields]
  exact keys_subset_setEntry _ _ _ _ h

theorem mem_ownProps_assignStep_self (acc : Entity) (kv : String × Val) :
    kv.1 ∈ (assignStep acc kv).ownProps := by
  unfold Entity.ownProps
  rw [assignStep_fields]
  exact mem_keys_setEntry _ _ _

theorem ownProps_assignStep_of_mem (acc : Entity) (kv : String × Val)
    (h : kv.1 ∈ acc.ownProps) : (assignStep acc kv).ownProps = acc.ownProps := by
  unfold Entity.ownProps at *
  rw [assignStep_fields]
  exact keys_setEntry_of_mem _ h

theorem ownProps_assign1_mono (component : List (String × Val)) :
    ∀ (e : Entity) {k : String}, k ∈ e.ownProps → k ∈ (e.assign1 component).ownProps := by
  induction component with
  | nil => intro e k h; exact h
  | cons kv rest ih =>
    intro e k h
    show k ∈ ((assignStep e kv).assign1 rest).ownProps
    exact ih (assignStep e kv) (ownProps_assignStep_mono e kv h)

theorem mem_ownProps_assign1_of_mem_keys (component : List (String × Val)) :
    ∀ (e : Entity) {k : String}, k ∈ component.map Prod.fst →
      k ∈ (e.assign1 component).ownProps := by
  induction component with
  | nil => intro e k h; simp at h
  | cons kv rest ih =>
    intro e k h
    rw [List.map_cons] at h
    show k ∈ ((assignStep e kv).assign1 rest).ownProps
    rcases List.mem_cons.mp h with h | h
    · subst h
      exact ownProps_assign1_mono rest (assignStep e kv) (mem_ownProps_assignStep_self e kv)
    · exact ih (assignStep e kv) h

theorem ownProps_assign1_of_subset (component : List (String × Val)) :
    ∀ (e : Entity), (∀ k ∈ component.map Prod.fst, k ∈ e.ownProps) →
      (e.assign1 component).ownProps = e.ownProps := by
  induction component with
  | nil => intro e _; rfl
  | cons kv rest ih =>
    intro e h
    have h₀ : kv.1 ∈ e.ownProps :=
      h kv.1 (by rw [List.map_cons]; exact List.mem_cons.mpr (Or.inl rfl))
    have hstep : (assignStep e kv).ownProps = e.ownProps :=
      ownProps_assignStep_of_mem e kv h₀
    have hrest : ((assignStep e kv).assign1 rest).ownProps = (assignStep e kv).ownProps :=
      ih (assignStep e kv) (fun k hk =>
        hstep ▸ h k (by rw [List.map_cons]; exact List.mem_cons.mpr (Or.inr hk)))
    calc (e.assign1 (kv :: rest)).ownProps
        = ((assignStep e kv).assign1 rest).ownProps := rfl
      _ = (assignStep e kv).ownProps := hrest
      _ = e.ownProps := hstep

theorem assign1_eid (component : List (String × Val)) :
    ∀ e : Entity, (e.assign1 component).eid = e.eid := by
  induction component with
  | nil => intro e; rfl
  | cons kv rest ih =>
    intro e
    calc (e.assign1 (kv :: rest)).eid = ((assignStep e kv).assign1 rest).eid := rfl
      _ = (assignStep e kv).eid := ih _
      _ = e.eid := assignStep_eid e kv

theorem assign_eid (components : List (List (String × Val))) :
    ∀ e : Entity, (e.assign components).eid = e.eid := by
  induction components with
  | nil => intro e; rfl
  | cons c rest ih =>
    intro e
    calc (e.assign (c :: rest)).eid = ((e.assign1 c).assign rest).eid := rfl
      _ = (e.assign1 c).eid := ih _
      _ = e.eid := assign1_eid c e

theorem ownProps_assign_mono (components : List (List (String × Val))) :
    ∀ (e : Entity) {k : String}, k ∈ e.ownProps → k ∈ (e.assign components).ownProps := by
  induction components with
  | nil => intro e k h; exact h
  | cons c rest ih =>
    intro e k h
    show k ∈ ((e.assign1 c).assign rest).ownProps
    exact ih (e.assign1 c) (ownProps_assign1_mono c e h)

/-! Concrete sample values used by witnesses and counterexamples. -/

/-- An entity owning a `position` property whose value is `undefined`. -/
def entPos : Entity := ⟨0, [("position", Val.undef)]⟩

/-- A manager whose registry holds just `entPos`. -/
def mgrA : EntityManager := ⟨[entPos], [], 1⟩

/-- An entity owning a field-container under key `k`. -/
def entK : Entity := ⟨3, [("k", Val.obj [("a", Val.num 1)])]⟩

/-! Claim theorems. -/

/-- C1: `getEntities(Q)` includes an entity iff it is registered and owns
every field name in `Q` (a value-agnostic membership test over its own
property names — an own property whose value is `undefined` still counts,
as the last conjunct shows on a concrete entity); the result is in
registry order (a sublist of the registry), and the empty query returns
every registered entity. -/
theorem C1_getEntities_query (m : EntityManager) (q : List String) :
    (∀ e : Entity, e ∈ m.getEntities q ↔ (e ∈ m.entities ∧ ∀ p ∈ q, p ∈ e.ownProps))
    ∧ (m.getEntities q).Sublist m.entities
    ∧ (q = [] → m.getEntities q = m.entities)
    ∧ queryMatches ⟨0, [("position", Val.undef)]⟩ ["position"] = true := by
  refine ⟨?_, ?_, ?_, ?_⟩
  · intro e
    unfold EntityManager.getEntities
    rw [List.mem_filter]
    unfold queryMatches
    simp [List.all_eq_true]
  · exact List.filter_sublist m.entities
  · intro hq
    subst hq
    unfold EntityManager.getEntities queryMatches
    simp
  · rfl

/-- C1 witness: the theorem applied to the concrete manager `mgrA` and the
empty query. -/
theorem C1_witness : MiniECS.mgrA.getEntities [] = MiniECS.mgrA.entities :=
  (C1_getEntities_query MiniECS.mgrA []).2.2.1 rfl

/-- C2: when both the incoming value of key `k` and the entity's current
value are field-containers, `assign` sets the field to the fresh container
`Object.assign(\x7b\x7d, current, incoming)`, which entrywise is the
current container overlaid with the incoming one (incoming sub-keys win,
current sub-keys absent from the incoming container are preserved, and the
merge is one level deep — an incoming sub-value replaces the current one
wholesale); concretely, `\x7ba:1,b:2\x7d` under `k` merged with
`\x7bk:\x7bb:3,c:4\x7d\x7d` gives `\x7ba:1,b:3,c:4\x7d`. -/
theorem C2_assign_merges_containers {F : List (String × Val)} {e : Entity}
    {k : String} {cur inc : List (String × Val)}
    (hF : (F.map Prod.fst).Nodup)
    (hlk : List.lookup k F = some (Val.obj inc))
    (hcur : e.getProp k = Val.obj cur)
    (hcnd : (cur.map Prod.fst).Nodup)
    (hind : (inc.map Prod.fst).Nodup) :
    ((e.assign [F]).getProp k = Val.obj (assignEntries (assignEntries [] cur) inc))
    ∧ (∀ sk : String,
        List.lookup sk (assignEntries (assignEntries [] cur) inc) =
          match List.lookup sk inc with
          | some v => some v
          | none => List.lookup sk cur)
    ∧ (((⟨5, [("k", Val.obj [("a", Val.num 1), ("b", Val.num 2)])]⟩ : Entity).assign
          [[("k", Val.obj [("b", Val.num 3), ("c", Val.num 4)])]]).getProp "k" =
        Val.obj [("a", Val.num 1), ("b", Val.num 3), ("c", Val.num 4)]) := by
  refine ⟨?_, ?_, ?_⟩
  · have h := getProp_assign1 hF e k
    rw [show e.assign [F] = e.assign1 F from rfl, h, hlk, hcur]
    rfl
  · intro sk
    rw [lookup_assignEntries hind _ sk, assignEntries_nil_of_nodup hcnd]
  · rfl

/-- C2 witness: the theorem applied to the concrete entity and fragment of
the spec's example. -/
theorem C2_witness :
    ((⟨5, [("k", Val.obj [("a", Val.num 1), ("b", Val.num 2)])]⟩ : Entity).assign
        [[("k", Val.obj [("b", Val.num 3), ("c", Val.num 4)])]]).getProp "k" =
      Val.obj (assignEntries
        (assignEntries [] [("a", Val.num 1), ("b", Val.num 2)])
        [("b", Val.num 3), ("c", Val.num 4)]) :=
  (@C2_assign_merges_containers
    [("k", Val.obj [("b", Val.num 3), ("c", Val.num 4)])]
    ⟨5, [("k", Val.obj [("a", Val.num 1), ("b", Val.num 2)])]⟩
    "k"
    [("a", Val.num 1), ("b", Val.num 2)]
    [("b", Val.num 3), ("c", Val.num 4)]
    (by decide) rfl rfl (by decide) (by decide)).1

/-- C3 counterexample: the fragment `\x7bk: null\x7d` assigned onto an
entity whose field `k` is the container `\x7ba:1\x7d`. `null` is not a
field-container (first conjunct), so the claim's hypothesis holds and the
claim predicts the field becomes the incoming value `null` — but `typeof
null === 'object'` makes the code take the merge branch, and
`Object.assign(\x7b\x7d, \x7ba:1\x7d, null)` leaves a copy of the current
container, not `null`. -/
theorem C3_counterexample :
    (isFieldContainer Val.vnull = false)
    ∧ ((MiniECS.entK.assign [[("k", Val.vnull)]]).getProp "k"
        = Val.obj [("a", Val.num 1)])
    ∧ ((MiniECS.entK.assign [[("k", Val.vnull)]]).getProp "k" ≠ Val.vnull) := by
  refine ⟨rfl, rfl, ?_⟩
  intro h
  exact Val.noConfusion h

/-- C3 (amended): whenever it is not the case that both the incoming value
and the current value have JS object type (`typeof === 'object'`, where
`null` also counts as object-typed), `assign` makes the field equal to the
incoming value outright; and `assign` always returns the entity object
itself (same identity, here: the entity's identity is unchanged). -/
theorem C3_amended_assign_replaces {F : List (String × Val)} {e : Entity}
    {k : String} {v : Val}
    (hF : (F.map Prod.fst).Nodup)
    (hlk : List.lookup k F = some v)
    (hcnd : ¬(typeofIsObject v = true ∧ typeofIsObject (e.getProp k) = true)) :
    ((e.assign [F]).getProp k = v)
    ∧ (∀ (e' : Entity) (comps : List (List (String × Val))),
        (e'.assign comps).eid = e'.eid) := by
  constructor
  · have h := getProp_assign1 hF e k
    rw [show e.assign [F] = e.assign1 F from rfl, h, hlk]
    have hb : ¬(typeofIsObject v && typeofIsObject (e.getProp k)) = true := by
      intro hb
      exact hcnd (by simpa [Bool.and_eq_true] using hb)
    simp [hb]
  · intro e' comps
    exact assign_eid comps e'

/-- C3 witness: a scalar incoming value over an existing container is
assigned outright. -/
theorem C3_amended_witness :
    (MiniECS.entK.assign [[("k", Val.num 9)]]).getProp "k" = Val.num 9 :=
  (@C3_amended_assign_replaces [("k", Val.num 9)] MiniECS.entK "k" (Val.num 9)
    (by decide) rfl (by decide)).1

/-! Idempotence of `assign` on well-formed fragments (C7). -/

/-- Well-formedness of a fragment value: a scalar other than `null`, or a
field-container with duplicate-free sub-keys. `null` is excluded: `typeof
null === 'object'` makes `assign` take the merge branch on it, which turns
a stored `null` into an empty object on the second application, so a
fragment carrying `null` is not idempotent. -/
def ValWF : Val → Bool
  | .vnull => false
  | .obj gs => decide ((gs.map Prod.fst).Nodup)
  | _ => true

theorem mem_of_lookup {l : List (String × Val)} {k : String} {v : Val}
    (h : List.lookup k l = some v) : (k, v) ∈ l := by
  induction l with
  | nil => simp [List.lookup] at h
  | cons kv rest ih =>
    obtain ⟨k₀, v₀⟩ := kv
    by_cases hk : k = k₀
    · subst hk
      simp [List.lookup] at h
      subst h
      exact List.mem_cons.mpr (Or.inl rfl)
    · rw [List.lookup, beq_false_of_ne hk] at h
      exact List.mem_cons.mpr (Or.inr (ih h))

theorem eq_obj_of_wf_typeofObject {v : Val} (hv : ValWF v = true)
    (hobj : typeofIsObject v = true) :
    ∃ gs, v = Val.obj gs ∧ (gs.map Prod.fst).Nodup := by
  cases v with
  | vnull => simp [ValWF] at hv
  | obj gs => exact ⟨gs, rfl, of_decide_eq_true (by simpa [ValWF] using hv)⟩
  | undef => simp [typeofIsObject] at hobj
  | bool b => simp [typeofIsObject] at hobj
  | num n => simp [typeofIsObject] at hobj
  | str s => simp [typeofIsObject] at hobj

theorem typeofIsObject_objMerge (c i : Val) : typeofIsObject (objMerge c i) = true := rfl

theorem objMerge_self {v : Val} (hv : ValWF v = true)
    (hobj : typeofIsObject v = true) : objMerge v v = v := by
  obtain ⟨gs, rfl, hnd⟩ := eq_obj_of_wf_typeofObject hv hobj
  have h : objMerge (Val.obj gs) (Val.obj gs) =
      Val.obj (assignEntries (assignEntries [] gs) gs) := rfl
  rw [h, assignEntries_nil_of_nodup hnd, assignEntries_id]
  intro kv hkv
  exact lookup_of_mem_nodup hnd hkv

theorem objMerge_objMerge_self {v : Val} (hv : ValWF v = true)
    (hobj : typeofIsObject v = true) (c : Val) :
    objMerge (objMerge c v) v = objMerge c v := by
  obtain ⟨gs, rfl, hnd⟩ := eq_obj_of_wf_typeofObject hv hobj
  have hsnd : ((assignEntries (assignEntries [] (objSpread c)) gs).map Prod.fst).Nodup :=
    nodup_keys_assignEntries gs (nodup_keys_assignEntries (objSpread c) (by simp))
  have h2 : objMerge (objMerge c (Val.obj gs)) (Val.obj gs) =
      Val.obj (assignEntries
        (assignEntries [] (assignEntries (assignEntries [] (objSpread c)) gs)) gs) := rfl
  rw [h2, assignEntries_nil_of_nodup hsnd, assignEntries_id]
  · rfl
  · intro kv hkv
    have hg : List.lookup kv.1 gs = some kv.2 := lookup_of_mem_nodup hnd hkv
    rw [lookup_assignEntries hnd _ kv.1, hg]

/-- C7: on a well-formed fragment (duplicate-free keys; each value a scalar
other than `null`, or a container with duplicate-free sub-keys) `assign` is
idempotent up to visible state: applying the same fragment twice leaves the
same own property names bound to structurally equal values as applying it
once. (`assign` itself is a total operation here, so it never fails on such
fragments; object identity of merged containers is outside the value
model.) -/
theorem C7_assign_idempotent {e : Entity} {F : List (String × Val)}
    (hF : (F.map Prod.fst).Nodup)
    (hwf : ∀ kv ∈ F, ValWF kv.2 = true) :
    ((e.assign [F]).assign [F]).ownProps = (e.assign [F]).ownProps
    ∧ (∀ k : String, ((e.assign [F]).assign [F]).getProp k = (e.assign [F]).getProp k) := by
  have hsingle : ∀ e' : Entity, e'.assign [F] = e'.assign1 F := fun _ => rfl
  constructor
  · rw [hsingle, hsingle]
    exact ownProps_assign1_of_subset F (e.assign1 F)
      (fun k hk => mem_ownProps_assign1_of_mem_keys F e hk)
  · intro k
    rw [hsingle, hsingle]
    rw [getProp_assign1 hF (e.assign1 F) k, getProp_assign1 hF e k]
    cases hlk : List.lookup k F with
    | none => simp [hlk]
    | some v =>
      simp only [hlk]
      by_cases hvo : typeofIsObject v = true
      · have hv : ValWF v = true := hwf (k, v) (mem_of_lookup hlk)
        by_cases hco : typeofIsObject (e.getProp k) = true
        · simp [hvo, hco, typeofIsObject_objMerge,
            objMerge_objMerge_self hv hvo, objMerge_self hv hvo]
        · simp [hvo, hco, typeofIsObject_objMerge,
            objMerge_objMerge_self hv hvo, objMerge_self hv hvo]
      · simp [hvo]

/-- C7 witness: applying the concrete fragment
`\x7bk: \x7bb:2\x7d, s: "x"\x7d` twice to `entK` leaves field `k` as after
one application. -/
theorem C7_witness :
    ((MiniECS.entK.assign [[("k", Val.obj [("b", Val.num 2)]), ("s", Val.str "x")]]).assign
        [[("k", Val.obj [("b", Val.num 2)]), ("s", Val.str "x")]]).getProp "k" =
      (MiniECS.entK.assign
        [[("k", Val.obj [("b", Val.num 2)]), ("s", Val.str "x")]]).getProp "k" :=
  (@C7_assign_idempotent MiniECS.entK
    [("k", Val.obj [("b", Val.num 2)]), ("s", Val.str "x")]
    (by decide) (by decide)).2 "k"

/-! Characterization of `compute` (C4). -/

theorem keys_computeStep (defaults acc : List (String × Val)) (kv : String × Val) :
    (computeStep defaults acc kv).map Prod.fst = acc.map Prod.fst := by
  unfold computeStep
  by_cases hmem : (List.lookup kv.1 acc).isSome = true
  · obtain ⟨v, hv⟩ := Option.isSome_iff_exists.mp hmem
    have hk : kv.1 ∈ acc.map Prod.fst := mem_keys_of_lookup hv
    by_cases hobj : typeofIsObject kv.2 = true
    · simp [hmem, hobj, keys_setEntry_of_mem _ hk]
    · simp [hmem, hobj, keys_setEntry_of_mem _ hk]
  · simp [hmem]

theorem lookup_computeStep_ne (defaults acc : List (String × Val))
    (kv : String × Val) {k : String} (h : k ≠ kv.1) :
    List.lookup k (computeStep defaults acc kv) = List.lookup k acc := by
  unfold computeStep
  by_cases hmem : (List.lookup kv.1 acc).isSome = true
  · by_cases hobj : typeofIsObject kv.2 = true
    · simp [hmem, hobj, lookup_setEntry_ne _ _ h]
    · simp [hmem, hobj, lookup_setEntry_ne _ _ h]
  · simp [hmem]

theorem keys_computeLoop (defaults : List (String × Val)) :
    ∀ (options acc : List (String × Val)),
      ((options.foldl (computeStep defaults) acc).map Prod.fst) = acc.map Prod.fst := by
  intro options
  induction options with
  | nil => intro acc; rfl
  | cons kv rest ih =>
    intro acc
    calc ((kv :: rest).foldl (computeStep defaults) acc).map Prod.fst
        = (rest.foldl (computeStep defaults) (computeStep defaults acc kv)).map Prod.fst := rfl
      _ = (computeStep defaults acc kv).map Prod.fst := ih _
      _ = acc.map Prod.fst := keys_computeStep defaults acc kv

theorem lookup_computeLoop (defaults : List (String × Val)) :
    ∀ {options : List (String × Val)}, (options.map Prod.fst).Nodup →
    ∀ (acc : List (String × Val)) (k : String),
      List.lookup k (options.foldl (computeStep defaults) acc) =
        match List.lookup k options with
        | some v =>
            if (List.lookup k acc).isSome then
              some (if typeofIsObject v
                    then objMerge ((List.lookup k defaults).getD Val.undef) v
                    else v)
            else List.lookup k acc
        | none => List.lookup k acc := by
  intro options
  induction options with
  | nil => intro _ acc k; simp [List.lookup]
  | cons kv rest ih =>
    intro hnd acc k
    obtain ⟨k₀, v₀⟩ := kv
    rw [List.map_cons, List.nodup_cons] at hnd
    have step : (((k₀, v₀) :: rest).foldl (computeStep defaults) acc) =
        rest.foldl (computeStep defaults) (computeStep defaults acc (k₀, v₀)) := rfl
    rw [step, ih hnd.2]
    by_cases hk : k = k₀
    · subst hk
      have hnone : List.lookup k rest = none := lookup_none_of_not_mem_keys hnd.1
      rw [hnone]
      have hhd : List.lookup k ((k, v₀) :: rest) = some v₀ := by simp [List.lookup]
      rw [hhd]
      unfold computeStep
      by_cases hmem : (List.lookup k acc).isSome = true
      · by_cases hobj : typeofIsObject v₀ = true
        · simp [hmem, hobj, lookup_setEntry_self]
        · simp [hmem, hobj, lookup_setEntry_self]
      · simp [hmem]
    · have hhd : List.lookup k ((k₀, v₀) :: rest) = List.lookup k rest := by
        simp [List.lookup, beq_false_of_ne hk]
      rw [hhd, lookup_computeStep_ne defaults acc (k₀, v₀) hk]

theorem assoc_ext : ∀ {l₁ l₂ : List (String × Val)},
    l₁.map Prod.fst = l₂.map Prod.fst → (l₁.map Prod.fst).Nodup →
    (∀ k, List.lookup k l₁ = List.lookup k l₂) → l₁ = l₂ := by
  intro l₁
  induction l₁ with
  | nil =>
    intro l₂ hkeys _ _
    cases l₂ with
    | nil => rfl
    | cons kv t => simp at hkeys
  | cons kv t₁ ih =>
    intro l₂ hkeys hnd hlk
    cases l₂ with
    | nil => simp at hkeys
    | cons kv' t₂ =>
      obtain ⟨k₁, v₁⟩ := kv
      obtain ⟨k₂, v₂⟩ := kv'
      rw [List.map_cons, List.map_cons] at hkeys
      have hk : k₁ = k₂ := List.head_eq_of_cons_eq hkeys
      have ht : t₁.map Prod.fst = t₂.map Prod.fst := List.tail_eq_of_cons_eq hkeys
      subst hk
      rw [List.map_cons, List.nodup_cons] at hnd
      have hv : v₁ = v₂ := by
        have h := hlk k₁
        simp [List.lookup] at h
        exact h
      subst hv
      have htail : t₁ = t₂ := by
        apply ih ht hnd.2
        intro k
        by_cases hkk : k = k₁
        · subst hkk
          rw [lookup_none_of_not_mem_keys hnd.1,
            lookup_none_of_not_mem_keys (ht ▸ hnd.1)]
        · have h := hlk k
          rw [List.lookup, List.lookup, beq_false_of_ne hkk] at h
          exact h
      rw [htail]

theorem lookup_mapValues (g : String → Val → Val) :
    ∀ (l : List (String × Val)) (k : String),
      List.lookup k (l.map (fun kv => (kv.1, g kv.1 kv.2))) =
        match List.lookup k l with
        | some d => some (g k d)
        | none => none := by
  intro l
  induction l with
  | nil => intro k; simp [List.lookup]
  | cons kv rest ih =>
    intro k
    obtain ⟨k₀, d₀⟩ := kv
    by_cases hk : k = k₀
    · subst hk
      simp [List.lookup]
    · simp only [List.map_cons, List.lookup, beq_false_of_ne hk]
      exact ih k

/-- C4 (amended): `compute(options, defaults)` equals the per-key spec
description in which the branch is chosen by the INCOMING value's JS
`typeof`: a key absent from the options keeps its default, a key whose
incoming value is of object type becomes the default's spread entries
overlaid with the incoming entries (one level, incoming sub-fields win),
and any other incoming value replaces the default outright; keys present
only in the options are ignored, and the result is one single-key fragment
per defaults entry, in defaults order. The concrete spec example also
holds. -/
theorem C4_compute_characterization (options defaults : List (String × Val))
    (hd : (defaults.map Prod.fst).Nodup) (ho : (options.map Prod.fst).Nodup) :
    compute options defaults = computeSpec options defaults
    ∧ (compute [("x", Val.obj [("p", Val.num 9)])]
         [("x", Val.obj [("p", Val.num 0), ("q", Val.num 0)]), ("y", Val.num 1)] =
       [[("x", Val.obj [("p", Val.num 9), ("q", Val.num 0)])], [("y", Val.num 1)]]) := by
  constructor
  · have hinit : assignEntries [] defaults = defaults := assignEntries_nil_of_nodup hd
    have hmerged :
        options.foldl (computeStep defaults) defaults =
          defaults.map (fun kv => (kv.1, computeKey options kv.1 kv.2)) := by
      apply assoc_ext
      · rw [keys_computeLoop defaults options defaults]
        rw [List.map_map]
        rfl
      · rw [keys_computeLoop defaults options defaults]
        exact hd
      · intro k
        rw [lookup_computeLoop defaults ho defaults k, lookup_mapValues]
        cases hdl : List.lookup k defaults with
        | none =>
          cases hol : List.lookup k options with
          | none => simp [hdl]
          | some v => simp [hdl]
        | some d =>
          cases hol : List.lookup k options with
          | none => simp [hdl, computeKey, hol]
          | some v => simp [hdl, computeKey, hol]
    unfold compute computeSpec
    rw [hinit]
    show (List.foldl (computeStep defaults) defaults options).map (fun kv => [(kv.1, kv.2)]) =
      defaults.map (fun kv => [(kv.1, computeKey options kv.1 kv.2)])
    rw [hmerged, List.map_map]
    rfl
  · rfl

/-- C4 witness: the characterization applied to the concrete example
inputs. -/
theorem C4_witness :
    compute [("x", Val.obj [("p", Val.num 9)])]
        [("x", Val.obj [("p", Val.num 0), ("q", Val.num 0)]), ("y", Val.num 1)] =
      computeSpec [("x", Val.obj [("p", Val.num 9)])]
        [("x", Val.obj [("p", Val.num 0), ("q", Val.num 0)]), ("y", Val.num 1)] :=
  (C4_compute_characterization
    [("x", Val.obj [("p", Val.num 9)])]
    [("x", Val.obj [("p", Val.num 0), ("q", Val.num 0)]), ("y", Val.num 1)]
    (by decide) (by decide)).1

/-- C4 counterexample: the original claim chooses the branch by the DEFAULT
value's type. With options `\x7bx: 7\x7d` and defaults
`\x7bx: \x7bp: 0\x7d\x7d` the default is a field-container, so the claim
overlays the scalar onto the container and predicts the fragment
`\x7bx: \x7bp: 0\x7d\x7d`; the code tests the incoming value
(`typeof 7 !== 'object'`) and replaces outright, producing `\x7bx: 7\x7d`. -/
theorem C4_counterexample :
    (compute [("x", Val.num 7)] [("x", Val.obj [("p", Val.num 0)])]
      = [[("x", Val.num 7)]])
    ∧ (computeClaimed [("x", Val.num 7)] [("x", Val.obj [("p", Val.num 0)])]
      = [[("x", Val.obj [("p", Val.num 0)])]])
    ∧ (compute [("x", Val.num 7)] [("x", Val.obj [("p", Val.num 0)])]
      ≠ computeClaimed [("x", Val.num 7)] [("x", Val.obj [("p", Val.num 0)])]) := by
  refine ⟨rfl, rfl, ?_⟩
  intro h
  rw [show compute [("x", Val.num 7)] [("x", Val.obj [("p", Val.num 0)])]
      = [[("x", Val.num 7)]] from rfl] at h
  rw [show computeClaimed [("x", Val.num 7)] [("x", Val.obj [("p", Val.num 0)])]
      = [[("x", Val.obj [("p", Val.num 0)])]] from rfl] at h
  injection h with h1 h2
  injection h1 with h3 h4
  injection h3 with h5 h6
  exact Val.noConfusion h6

/-! Ordering of system execution (C5). -/

theorem sysLE_trans : ∀ a b c : System, sysLE a b → sysLE b c → sysLE a c := by
  intro a b c hab hbc
  simp only [sysLE, decide_eq_true_eq] at *
  omega

theorem sysLE_total : ∀ a b : System, sysLE a b || sysLE b a := by
  intro a b
  simp only [sysLE, Bool.or_eq_true, decide_eq_true_eq]
  omega

theorem pairwise_filter_priority (p : Int) (l : List System) :
    (l.filter (fun s => s.priority == p)).Pairwise (fun a b => sysLE a b = true) := by
  induction l with
  | nil => simp
  | cons s rest ih =>
    by_cases h : (s.priority == p) = true
    · rw [show List.filter (fun s => s.priority == p) (s :: rest)
          = s :: List.filter (fun s => s.priority == p) rest by
        simp [List.filter_cons, h]]
      refine List.Pairwise.cons ?_ ih
      intro b hb
      have hbp : (b.priority == p) = true := (List.mem_filter.mp hb).2
      have h1 : s.priority = p := by simpa using h
      have h2 : b.priority = p := by simpa using hbp
      simp [sysLE, h1, h2]
    · rw [show List.filter (fun s => s.priority == p) (s :: rest)
          = List.filter (fun s => s.priority == p) rest by
        simp [List.filter_cons, h]]
      exact ih

theorem mergeSort_filter_priority (l : List System) (p : Int) :
    (l.mergeSort sysLE).filter (fun s => s.priority == p)
      = l.filter (fun s => s.priority == p) := by
  have hc : (l.filter (fun s => s.priority == p)).Pairwise (fun a b => sysLE a b = true) :=
    pairwise_filter_priority p l
  have hsub : List.Sublist (l.filter (fun s => s.priority == p)) (l.mergeSort sysLE) :=
    List.sublist_mergeSort sysLE_trans sysLE_total hc (List.filter_sublist l)
  have hself : (l.filter (fun s => s.priority == p)).filter (fun s => s.priority == p)
      = l.filter (fun s => s.priority == p) :=
    List.filter_eq_self.mpr (fun a ha => (List.mem_filter.mp ha).2)
  have hsub2 := hsub.filter (fun s => s.priority == p)
  rw [hself] at hsub2
  have hlen : (l.filter (fun s => s.priority == p)).length
      = ((l.mergeSort sysLE).filter (fun s => s.priority == p)).length :=
    (((List.mergeSort_perm l sysLE).filter (fun s => s.priority == p)).length_eq).symm
  exact (hsub2.eq_of_length hlen).symm

/-- C5: one call to `update(delta, time)` invokes each registered system
exactly once (the invocation trace is a permutation of the registry), in
non-decreasing order of priority as it stood at the start of the update,
with ties between equal-priority systems in their relative registration
order (the filter at any fixed priority is unchanged), and every
invocation receives `delta` and `time` unchanged; the registry itself is
left re-sorted, which is why a priority changed between ticks takes effect
on the next tick. -/
theorem C5_update_order (m : EntityManager) (delta time : Int) :
    ((m.update delta time).2.map Prod.fst).Perm m.systems
    ∧ ((m.update delta time).2.map Prod.fst).Pairwise
        (fun a b => a.priority ≤ b.priority)
    ∧ (∀ p : Int, ((m.update delta time).2.map Prod.fst).filter
          (fun s => s.priority == p)
        = m.systems.filter (fun s => s.priority == p))
    ∧ (∀ x ∈ (m.update delta time).2, x.2 = (delta, time))
    ∧ (m.update delta time).1.systems = (m.update delta time).2.map Prod.fst := by
  have key : (m.update delta time).2.map Prod.fst = m.systems.mergeSort sysLE := by
    show ((m.systems.mergeSort sysLE).map (fun s => (s, delta, time))).map Prod.fst
      = m.systems.mergeSort sysLE
    rw [List.map_map]
    exact List.map_id _
  refine ⟨?_, ?_, ?_, ?_, ?_⟩
  · rw [key]
    exact List.mergeSort_perm m.systems sysLE
  · rw [key]
    refine (List.sorted_mergeSort sysLE_trans sysLE_total m.systems).imp ?_
    intro a b h
    simpa [sysLE] using h
  · intro p
    rw [key]
    exact mergeSort_filter_priority m.systems p
  · intro x hx
    obtain ⟨s, _, rfl⟩ := List.mem_map.mp hx
    rfl
  · rw [key]
    rfl

/-- C6: a system whose intended query lives on the class prototype (as
`MovableSystem.prototype.query` does) but which is constructed without an
explicit query argument receives an own `query = []` from the inherited
constructor (`query || []`); the own property shadows the prototype's
(`propOrProto`), so the instance's effective query is empty and differs
from the prototype query — and by the empty-query rule its `getEntities()`
selects every entity registered with its manager. -/
theorem C6_prototype_query_shadowed :
    (propOrProto (some (System.new 9 none none).query) MovableSystem.protoQuery = [])
    ∧ ((System.new 9 none none).query ≠ MovableSystem.protoQuery)
    ∧ (∀ m : EntityManager,
        (System.new 9 none none).getEntities (some m) = some m.entities) := by
  refine ⟨rfl, by decide, ?_⟩
  intro m
  show some (m.getEntities (System.new 9 none none).query) = some m.entities
  have hq : (System.new 9 none none).query = [] := rfl
  rw [hq]
  have hnil : m.getEntities [] = m.entities := by
    unfold EntityManager.getEntities queryMatches
    simp
  rw [hnil]

/-- C8: `System.getEntities()` fails (a TypeError on the `null` manager
reference, modelled as `none`) when invoked before registration;
`registerSystem` appends the system to the registry and returns it; and
once the back-reference is the owning manager, `getEntities()` returns
exactly that manager's `getEntities(this.query)`. -/
theorem C8_getEntities_registration :
    (∀ s : System, s.getEntities none = none)
    ∧ (∀ (m : EntityManager) (s : System),
        (m.registerSystem s).1.systems = m.systems ++ [s]
        ∧ (m.registerSystem s).2 = s)
    ∧ (∀ (m : EntityManager) (s : System),
        s.getEntities (some m) = some (m.getEntities s.query)) :=
  ⟨fun _ => rfl, fun _ _ => ⟨rfl, rfl⟩, fun _ _ => rfl⟩

/-! Removal of entities (C9). -/

theorem jsIndexOf_eq_none {l : List Entity} {t : Nat}
    (h : ∀ x ∈ l, x.eid ≠ t) : jsIndexOf l t = none := by
  induction l with
  | nil => rfl
  | cons x rest ih =>
    have hx : x.eid ≠ t := h x (List.mem_cons.mpr (Or.inl rfl))
    have hr := ih (fun y hy => h y (List.mem_cons.mpr (Or.inr hy)))
    simp [jsIndexOf, hx, hr]

theorem jsIndexOf_append {pre : List Entity} {x : Entity} {post : List Entity} {t : Nat}
    (hx : x.eid = t) (hpre : ∀ y ∈ pre, y.eid ≠ t) :
    jsIndexOf (pre ++ x :: post) t = some pre.length := by
  induction pre with
  | nil => simp [jsIndexOf, hx]
  | cons y rest ih =>
    have hy : y.eid ≠ t := hpre y (List.mem_cons.mpr (Or.inl rfl))
    have hr := ih (fun z hz => hpre z (List.mem_cons.mpr (Or.inr hz)))
    simp [jsIndexOf, hy, hr]

theorem splice1_append (pre : List Entity) (x : Entity) (post : List Entity) :
    splice1 (pre ++ x :: post) pre.length = pre ++ post := by
  induction pre with
  | nil => simp [splice1]
  | cons y rest ih =>
    simp only [splice1, List.length_cons, List.cons_append, List.take_succ_cons,
      List.drop_succ_cons] at *
    rw [ih]

/-- C9: `destroyEntity(E)` removes exactly the first occurrence of `E`
(identity comparison) from the entity registry, leaving the entries before
and after it — and the system registry — unchanged; when `E` is not
present it is a no-op (a total operation: nothing is thrown) that leaves
the manager entirely unaltered. -/
theorem C9_destroyEntity (m : EntityManager) (e : Entity) :
    ((∀ x ∈ m.entities, x.eid ≠ e.eid) → m.destroyEntity e = m)
    ∧ (∀ pre x post, m.entities = pre ++ x :: post → x.eid = e.eid →
        (∀ y ∈ pre, y.eid ≠ e.eid) →
        (m.destroyEntity e).entities = pre ++ post
        ∧ (m.destroyEntity e).systems = m.systems) := by
  constructor
  · intro h
    unfold EntityManager.destroyEntity
    rw [jsIndexOf_eq_none h]
  · intro pre x post hsplit hx hpre
    unfold EntityManager.destroyEntity
    rw [hsplit, jsIndexOf_append hx hpre]
    exact ⟨splice1_append pre x post, rfl⟩

/-- Concrete entities and a manager for the C9 witness. -/
def entA : Entity := ⟨10, []⟩

def entB : Entity := ⟨11, []⟩

def entC : Entity := ⟨12, []⟩

def mgrD : EntityManager := ⟨[entA, entB, entC], [], 13⟩

/-- C9 witness: destroying an absent entity changes nothing, and destroying
`entB` from `[entA, entB, entC]` leaves `[entA, entC]`. -/
theorem C9_witness :
    (EntityManager.destroyEntity ⟨[MiniECS.entA], [], 13⟩ MiniECS.entB
      = (⟨[MiniECS.entA], [], 13⟩ : EntityManager))
    ∧ (MiniECS.mgrD.destroyEntity MiniECS.entB).entities
      = [MiniECS.entA, MiniECS.entC] := by
  constructor
  · exact (C9_destroyEntity ⟨[MiniECS.entA], [], 13⟩ MiniECS.entB).1 (by decide)
  · exact ((C9_destroyEntity MiniECS.mgrD MiniECS.entB).2 [MiniECS.entA] MiniECS.entB
      [MiniECS.entC] rfl rfl (by decide)).1

/-- C10: an entity created through `createEntity` owns `priority` and
`entityManager` from the moment of creation and is registered; `assign`
(the only core operation that touches an entity's fields) never removes an
own property; consequently any query drawn from
`\x7b"priority", "entityManager"\x7d` matches such an entity in
`getEntities`. -/
theorem C10_bookkeeping_fields (m : EntityManager) (p : Option Int) :
    ("entityManager" ∈ (m.createEntity p).2.ownProps
      ∧ "priority" ∈ (m.createEntity p).2.ownProps
      ∧ (m.createEntity p).2 ∈ (m.createEntity p).1.entities)
    ∧ (∀ (e : Entity) (comps : List (List (String × Val))) (k : String),
        k ∈ e.ownProps → k ∈ (e.assign comps).ownProps)
    ∧ (∀ q : List String, (∀ x ∈ q, x = "priority" ∨ x = "entityManager") →
        queryMatches (m.createEntity p).2 q = true
        ∧ (m.createEntity p).2 ∈ (m.createEntity p).1.getEntities q) := by
  refine ⟨⟨?_, ?_, ?_⟩, ?_, ?_⟩
  · simp [EntityManager.createEntity, Entity.new, Entity.ownProps]
  · simp [EntityManager.createEntity, Entity.new, Entity.ownProps]
  · simp [EntityManager.createEntity]
  · intro e comps k hk
    exact ownProps_assign_mono comps e hk
  · intro q hq
    have hmatch : queryMatches (m.createEntity p).2 q = true := by
      unfold queryMatches
      rw [List.all_eq_true]
      intro x hx
      rcases hq x hx with h | h <;> subst h <;>
        simp [EntityManager.createEntity, Entity.new, Entity.ownProps]
    refine ⟨hmatch, ?_⟩
    unfold EntityManager.getEntities
    rw [List.mem_filter]
    exact ⟨by simp [EntityManager.createEntity], hmatch⟩

/-- C10 witness: the created entity of the concrete manager `mgrA` matches
the query `["priority"]`. -/
theorem C10_witness :
    queryMatches (MiniECS.mgrA.createEntity none).2 ["priority"] = true :=
  ((C10_bookkeeping_fields MiniECS.mgrA none).2.2 ["priority"] (by decide)).1

/-- C5 witness systems and manager. -/
def sysA : System := ⟨0, 2, []⟩

def sysB : System := ⟨1, 1, []⟩

def mgrS : EntityManager := ⟨[], [sysA, sysB], 0⟩

/-- C5 witness: the stability conjunct of the update-order theorem,
instantiated on a concrete two-system manager at priority 1. -/
theorem C5_witness :
    ((MiniECS.mgrS.update 3 4).2.map Prod.fst).filter (fun s => s.priority == 1)
      = MiniECS.mgrS.systems.filter (fun s => s.priority == 1) :=
  (C5_update_order MiniECS.mgrS 3 4).2.2.1 1

end MiniECS
